import Mathlib

/-
Verification development for the pump-selection program (src/project.py).
The program's data tables (pandas DataFrames parsed from CSV files) are
embedded as lists of rows of optional rationals; `none` models a missing
value (NaN).  External numeric library kernels that are not part of the
repository (scipy's scattered 2-D griddata, matplotlib's point-in-path
test) are treated as stated in the design document: griddata methods are
abstract parameters, the containment test is the standard even-odd
crossing test of section 4.2.
-/

set_option maxRecDepth 10000
set_option autoImplicit false

/-- Table cell: `none` models a missing value (NaN) in a pandas DataFrame. -/
abbrev Cell := Option ℚ

/-- Tabular data: ordered column names together with rows of cells,
modelling the DataFrame produced by pd.read_csv. -/
structure Table where
  cols : List String
  rows : List (List Cell)

/-- Value of column `c` in row `r` of table `t` (first matching column
label, as in pandas label lookup); `none` when the column is absent. -/
def getCell (t : Table) (c : String) (r : List Cell) : Cell :=
  match t.cols.findIdx? (fun c2 => c2 == c) with
  | some i => r.getD i none
  | none => none

/-- ASCII lower-casing of one character, modelling Python str.lower on the
ASCII column names the program manipulates. -/
def lowerChar (c : Char) : Char :=
  if 'A' ≤ c ∧ c ≤ 'Z' then Char.ofNat (c.toNat + 32) else c

def isWSChar (c : Char) : Bool :=
  c == ' ' || c == '\t' || c == '\n' || c == '\r'

def trimBoth (l : List Char) : List Char :=
  ((l.dropWhile isWSChar).reverse.dropWhile isWSChar).reverse

/-- Python col.lower(), as a character list. -/
def lowerName (c : String) : List Char := c.data.map lowerChar

/-- Python col.strip().lower(), as a character list. -/
def normName (c : String) : List Char := trimBoth (lowerName c)

/-- Flow-column test of the program: col.strip().lower() in ['flow', 'x']. -/
def isFlowName (c : String) : Bool :=
  normName c == "flow".data || normName c == "x".data

/-- First column of `t` whose stripped lower-case name is flow or x. -/
def flowColOf (t : Table) : Option String := t.cols.find? isFlowName

def digitsToNat (l : List Char) : Nat :=
  l.foldl (fun a c => a * 10 + (c.toNat - 48)) 0

/-- Number denoted by the first run of decimal digits in a string; models
int(re.search(..digits.., s).group()) with `none` for a failed search. -/
def firstNat (s : String) : Option Nat :=
  let ds := (s.data.dropWhile (fun c => !c.isDigit)).takeWhile Char.isDigit
  if ds.isEmpty then none else some (digitsToNat ds)

/-- First decimal number (digit run, optional dot, optional digit run) in
a string; models float(re.search(..number.., s).group()). -/
def firstNumber (s : String) : Option ℚ :=
  let rest := s.data.dropWhile (fun c => !c.isDigit)
  let ip := rest.takeWhile Char.isDigit
  if ip.isEmpty then none
  else
    let fp := match rest.drop ip.length with
      | '.' :: r => r.takeWhile Char.isDigit
      | _ => []
    some ((digitsToNat ip : ℚ) + (digitsToNat fp : ℚ) / (10 : ℚ) ^ fp.length)

def digitChar (n : Nat) : Char := Char.ofNat (48 + n % 10)

def natToCharsAux : Nat → Nat → List Char → List Char
  | 0, _, acc => acc
  | fuel + 1, n, acc =>
    if n = 0 then acc else natToCharsAux fuel (n / 10) (digitChar (n % 10) :: acc)

/-- Decimal rendering of a natural number, modelling the f-string
interpolation of the selected diameter into the power-column pattern. -/
def natToChars (n : Nat) : List Char :=
  if n = 0 then "0".data else natToCharsAux (n + 1) n []

/-- Rows of `t` whose cell in column `c` is present; models
df.dropna with that single column as subset. -/
def dropnaOn (t : Table) (c : String) : Table :=
  ⟨t.cols, t.rows.filter (fun r => (getCell t c r).isSome)⟩

/-- Pairs (flow, value) of the rows where both the flow column `fc` and
the value column `c` are present, in row order; models the two-column
dropna projection the program takes of each curve. -/
def curvePoints (t : Table) (fc c : String) : List (ℚ × ℚ) :=
  t.rows.filterMap (fun r =>
    match getCell t fc r, getCell t c r with
    | some q, some v => some (q, v)
    | _, _ => none)

def insertFlow (p : ℚ × ℚ) : List (ℚ × ℚ) → List (ℚ × ℚ)
  | [] => [p]
  | q :: rest => if p.1 < q.1 then p :: q :: rest else q :: insertFlow p rest

/-- Stable sort of (flow, value) pairs by flow; models
df.sort_values on the flow column. -/
def sortByFlow : List (ℚ × ℚ) → List (ℚ × ℚ)
  | [] => []
  | p :: rest => insertFlow p (sortByFlow rest)

/-- The sorted sample list of one curve column. -/
def curveSamples (t : Table) (fc c : String) : List (ℚ × ℚ) :=
  sortByFlow (curvePoints t fc c)

/-- Piecewise-linear interpolation, extrapolating with the slope of the
first or last segment outside the sampled range; models
scipy.interpolate.interp1d with fill_value extrapolate on samples sorted
by flow.  On fewer than two samples (a case the program always guards
with a length check) it returns a default value. -/
def interp1d : List (ℚ × ℚ) → ℚ → ℚ
  | [], _ => 0
  | [(_, y)], _ => y
  | (x1, y1) :: (x2, y2) :: rest, t =>
    if t ≤ x2 ∨ rest = [] then y1 + (y2 - y1) * (t - x1) / (x2 - x1)
    else interp1d ((x2, y2) :: rest) t

/-- Head predicted by curve column `c` at the requested flow. -/
def headOnCurve (t : Table) (fc c : String) (flow : ℚ) : ℚ :=
  interp1d (curveSamples t fc c) flow

/-- Python round(x, 2), modelled as half-up rounding to 2 decimals. -/
def round2 (q : ℚ) : ℚ := (Rat.floor (q * 100 + 1 / 2) : ℚ) / 100

structure Candidate where
  diameter : Nat
  distance : ℚ
  deriving DecidableEq

/-- The phi_ columns of the head/efficiency table, in column order. -/
def phiColsOf (t : Table) : List String :=
  t.cols.filter (fun c => "phi_".data.isPrefixOf (lowerName c))

/-- Outcome of one iteration of the diameter-selection loop on column `c`:
`none` models the continue on a short curve or the non-qualifying case,
an error models the exception raised by the regex lookup when a
qualifying column name holds no digits. -/
def candidateOf (t : Table) (fc c : String) (flow head : ℚ) :
    Option (Except Unit Candidate) :=
  if (curveSamples t fc c).length < 2 then none
  else if head ≤ headOnCurve t fc c flow then
    match firstNat c with
    | some d => some (Except.ok ⟨d, headOnCurve t fc c flow - head⟩)
    | none => some (Except.error ())
  else none

/-- The candidate produced by column `c`, when the iteration neither
skips the column nor raises. -/
def okCandidate (t : Table) (fc c : String) (flow head : ℚ) : Option Candidate :=
  match candidateOf t fc c flow head with
  | some (Except.ok cand) => some cand
  | _ => none

def collectCandidates (t : Table) (fc : String) (flow head : ℚ) :
    List String → Except Unit (List Candidate)
  | [] => Except.ok []
  | c :: rest =>
    match candidateOf t fc c flow head with
    | some (Except.error _) => Except.error ()
    | some (Except.ok cand) =>
      (collectCandidates t fc flow head rest).map (fun l => cand :: l)
    | none => collectCandidates t fc flow head rest

/-- Python min with a key function: the first element of least distance. -/
def minByDistance : Candidate → List Candidate → Candidate
  | best, [] => best
  | best, c :: rest =>
    minByDistance (if c.distance < best.distance then c else best) rest

/-- Impeller-diameter selection over the phi_ columns. -/
def diameterPhase (t : Table) (fc : String) (flow head : ℚ) :
    Except Unit (Option Nat) :=
  match collectCandidates t fc flow head (phiColsOf t) with
  | Except.error _ => Except.error ()
  | Except.ok [] => Except.ok none
  | Except.ok (c :: cs) => Except.ok (some (minByDistance c cs).diameter)

/-- Scattered-data 2-D interpolation oracles: scipy griddata is external
library code, so the cubic and linear methods are abstract parameters of
the model; `none` models a NaN result. -/
structure Interp2D where
  cubic : List (ℚ × ℚ) → List ℚ → ℚ × ℚ → Option ℚ
  linear : List (ℚ × ℚ) → List ℚ → ℚ × ℚ → Option ℚ

/-- The eff_ columns of the head/efficiency table, in column order. -/
def effColsOf (t : Table) : List String :=
  t.cols.filter (fun c => "eff_".data.isPrefixOf (lowerName c))

/-- Pools the (flow, head) points and efficiency labels of the eff_
columns, in column-then-row order; an error models the exception raised
by the label regex on a name without digits. -/
def pooledPoints (t : Table) (fc : String) :
    List String → Except Unit (List (ℚ × ℚ) × List ℚ)
  | [] => Except.ok ([], [])
  | c :: rest =>
    match firstNumber c with
    | none => Except.error ()
    | some v =>
      let pts := curvePoints t fc c
      (pooledPoints t fc rest).map
        (fun pv => (pts ++ pv.1, pts.map (fun _ => v) ++ pv.2))

/-- Efficiency estimate from the pooled points: at least 4 pooled points,
cubic scattered interpolation first, linear on a NaN result, rounding on
success. -/
def effEstimate (gd : Interp2D) (pts : List (ℚ × ℚ)) (vals : List ℚ)
    (flow head : ℚ) : Option ℚ :=
  if 4 ≤ pts.length then
    match gd.cubic pts vals (flow, head) with
    | some v => some (round2 v)
    | none =>
      match gd.linear pts vals (flow, head) with
      | some v => some (round2 v)
      | none => none
  else none

/-- Efficiency estimation: pooling (which can raise), then the
dual-fallback estimate. -/
def efficiencyPhase (gd : Interp2D) (t : Table) (fc : String) (flow head : ℚ) :
    Except Unit (Option ℚ) :=
  match pooledPoints t fc (effColsOf t) with
  | Except.error _ => Except.error ()
  | Except.ok pv => Except.ok (effEstimate gd pv.1 pv.2 flow head)

structure HEOutcome where
  diameter : Option Nat
  efficiency : Option ℚ
  deriving DecidableEq

/-- Processing of the Head_Efficiency table: flow-column discovery,
dropna on the flow column, then diameter selection and efficiency
estimation inside one protected block — an exception in the diameter
phase abandons the efficiency phase too, while an exception in the
efficiency phase keeps the already-assigned diameter. -/
def processCurves (gd : Interp2D) (t : Table) (flow head : ℚ) : HEOutcome :=
  match flowColOf t with
  | none => ⟨none, none⟩
  | some fc =>
    match diameterPhase (dropnaOn t fc) fc flow head with
    | Except.error _ => ⟨none, none⟩
    | Except.ok dia =>
      match efficiencyPhase gd (dropnaOn t fc) fc flow head with
      | Except.error _ => ⟨dia, none⟩
      | Except.ok eff => ⟨dia, eff⟩

/-- Lower-case power-column pattern p_<diameter>. -/
def powerColPattern (d : Nat) : List Char := 'p' :: '_' :: natToChars d

/-- Power estimation from the Power table: guarded by the truthiness of
the selected diameter (so diameter 0 skips it), then flow-column
discovery, lookup of the column whose stripped lower-case name is the
pattern, a two-sample minimum, interpolation and rounding. -/
def powerPhase (dia : Option Nat) (powerTable : Option Table) (flow : ℚ) :
    Option ℚ :=
  match dia with
  | some d =>
    if d ≠ 0 then
      match powerTable with
      | some pt =>
        match flowColOf pt with
        | some pfc =>
          match pt.cols.find? (fun c => normName c == powerColPattern d) with
          | some pcol =>
            if 2 ≤ (curveSamples pt pfc pcol).length then
              some (round2 (interp1d (curveSamples pt pfc pcol) flow))
            else none
          | none => none
        | none => none
      | none => none
    else none
  | none => none

structure PerfDetails where
  diameter : Option Nat
  efficiency : Option ℚ
  power : Option ℚ
  deriving DecidableEq

/-- Model of get_performance_details.  The two CSV files are passed as
optional parsed tables; `none` models a missing or unreadable file. -/
def get_performance_details (gd : Interp2D) (curvesTable powerTable : Option Table)
    (flow head : ℚ) : PerfDetails :=
  let he := match curvesTable with
    | none => (⟨none, none⟩ : HEOutcome)
    | some t => processCurves gd t flow head
  ⟨he.diameter, he.efficiency, powerPhase he.diameter powerTable flow⟩

def cellsOf (t : Table) (cs : List String) (r : List Cell) : List ℚ :=
  cs.filterMap (fun c => getCell t c r)

/-- Row-wise maximum over the given columns, skipping missing values, as
the pandas row-wise max does. -/
def rowMax (t : Table) (cs : List String) (r : List Cell) : Cell :=
  match cellsOf t cs r with
  | [] => none
  | v :: vs => some (vs.foldl max v)

/-- Row-wise minimum over the given columns, skipping missing values. -/
def rowMin (t : Table) (cs : List String) (r : List Cell) : Cell :=
  match cellsOf t cs r with
  | [] => none
  | v :: vs => some (vs.foldl min v)

/-- Curve columns of a boundary table: every column whose lower-case name
differs from x. -/
def curveColsOf (t : Table) : List String :=
  t.cols.filter (fun c => !(lowerName c == "x".data))

/-- Model of get_pump_boundary_polygon: requires a column named exactly
x, takes every other column as a curve column, and builds the upper
envelope in row order followed by the lower envelope reversed; fewer
than 3 vertices give no polygon.  A `none` input models a missing or
unreadable boundary file. -/
def get_pump_boundary_polygon (file : Option Table) : Option (List (Cell × Cell)) :=
  match file with
  | none => none
  | some df =>
    if df.cols.contains "x" then
      if curveColsOf df ≠ [] then
        let upper_h := df.rows.map (rowMax df (curveColsOf df))
        let lower_h := df.rows.map (rowMin df (curveColsOf df))
        let flow := df.rows.map (getCell df "x")
        let vertices := flow.zip upper_h ++ (flow.zip lower_h).reverse
        if 3 ≤ vertices.length then some vertices else none
      else none
    else none

def cellGT (a : Cell) (b : ℚ) : Bool :=
  match a with
  | some x => decide (b < x)
  | none => false

/-- Crossing test of one polygon edge against the rightward ray from the
query point; comparisons against a missing coordinate are false, as for
NaN floats. -/
def edgeCrosses (px py : ℚ) (v1 v2 : Cell × Cell) : Bool :=
  (cellGT v1.2 py != cellGT v2.2 py) &&
    (match v1.1, v1.2, v2.1, v2.2 with
     | some x1, some y1, some x2, some y2 =>
       decide (px < (x2 - x1) * (py - y1) / (y2 - y1) + x1)
     | _, _, _, _ => false)

/-- Modelled from the spec: matplotlib Path.contains_point is external
library code; following section 4.2 of the design (standard
point-in-polygon, ray casting) it is the even-odd crossing test on the
closed vertex ring. -/
def contains_point (poly : List (Cell × Cell)) (p : ℚ × ℚ) : Bool :=
  match poly with
  | [] => false
  | v0 :: _ =>
    ((poly.zip (poly.drop 1 ++ [v0])).filter
      (fun e => edgeCrosses p.1 p.2 e.1 e.2)).length % 2 == 1

/-- One pump of the catalog: its directory name and its three data files,
each `none` when missing or unreadable. -/
structure PumpEntry where
  name : String
  boundary : Option Table
  curves : Option Table
  power : Option Table

structure PumpResult where
  pump : String
  diameter : Option Nat
  efficiency : Option ℚ
  power : Option ℚ
  deriving DecidableEq

/-- Model of find_available_pumps: `none` models a missing data
directory, reported and turned into an empty listing. -/
def find_available_pumps (catalog : Option (List PumpEntry)) : List PumpEntry :=
  match catalog with
  | none => []
  | some ps => ps

/-- The result record appended for one admissible pump. -/
def pumpRecord (gd : Interp2D) (flow head : ℚ) (p : PumpEntry) : PumpResult :=
  let d := get_performance_details gd p.curves p.power flow head
  ⟨p.name, d.diameter, d.efficiency, d.power⟩

/-- Screening of one pump: a record when its boundary polygon exists and
contains the operating point, nothing otherwise. -/
def screenPump (gd : Interp2D) (flow head : ℚ) (p : PumpEntry) :
    Option PumpResult :=
  match get_pump_boundary_polygon p.boundary with
  | some poly =>
    if contains_point poly (flow, head) then some (pumpRecord gd flow head p)
    else none
  | none => none

/-- Model of find_suitable_pumps: iterate the catalog and append one
record per pump whose boundary polygon exists and contains the operating
point. -/
def find_suitable_pumps (gd : Interp2D) (catalog : Option (List PumpEntry))
    (flow head : ℚ) : List PumpResult :=
  (find_available_pumps catalog).foldl
    (fun acc p =>
      match get_pump_boundary_polygon p.boundary with
      | some poly =>
        if contains_point poly (flow, head) then acc ++ [pumpRecord gd flow head p]
        else acc
      | none => acc) []

/-- Interpolation oracle with both methods failing everywhere. -/
def gdNone : Interp2D := ⟨fun _ _ _ => none, fun _ _ _ => none⟩

/-- Interpolation oracle with both methods yielding the constant 50. -/
def gdConst50 : Interp2D := ⟨fun _ _ _ => some 50, fun _ _ _ => some 50⟩

/-- Diamond-shaped boundary table of the round-trip scenario: flows
0, 10, 20; upper heads 5, 10, 5; lower heads 1, 2, 1. -/
def diamondTable : Table :=
  ⟨["x", "d1", "d2"],
   [[some 0, some 5, some 1],
    [some 10, some 10, some 2],
    [some 20, some 5, some 1]]⟩

/-- Boundary table whose flow column is named flow rather than x. -/
def flowNamedTable : Table :=
  ⟨["flow", "h_200"],
   [[some 0, some 5], [some 10, some 10], [some 20, some 5]]⟩

/-- Head/efficiency table whose only phi_ column parses to diameter 0. -/
def zeroDiaTable : Table :=
  ⟨["x", "phi_0"], [[some 0, some 10], [some 1, some 10]]⟩

/-- Head/efficiency table with a digitless qualifying phi_ column next to
a well-formed efficiency column holding four points. -/
def digitlessPhiTable : Table :=
  ⟨["x", "phi_a", "eff_50"],
   [[some 0, some 10, some 3],
    [some 1, some 10, some 4],
    [some 2, some 10, some 5],
    [some 3, some 10, some 6]]⟩

/-- Head/efficiency table whose single curve stays below head 5. -/
def lowCurveTable : Table :=
  ⟨["x", "phi_200"], [[some 0, some 1], [some 1, some 1]]⟩

/-- Head/efficiency table whose single curve gives head 10 everywhere. -/
def dia210Table : Table :=
  ⟨["x", "phi_210"], [[some 0, some 10], [some 10, some 10]]⟩

/-- Power table with a p_210 curve from (0, 4) to (10, 8). -/
def power210Table : Table :=
  ⟨["x", "p_210"], [[some 0, some 4], [some 10, some 8]]⟩

/-- Power table with a p_0 curve from (0, 4) to (10, 8). -/
def power0Table : Table :=
  ⟨["x", "p_0"], [[some 0, some 4], [some 10, some 8]]⟩

/-- Table with one efficiency column holding four points. -/
def effOnlyTable : Table :=
  ⟨["x", "eff_60"],
   [[some 0, some 3], [some 1, some 3], [some 2, some 3], [some 3, some 3]]⟩

/-- Two tied phi_ columns: both curves give head 8 everywhere. -/
def tiedPhiTable : Table :=
  ⟨["x", "phi_300", "phi_200"],
   [[some 0, some 8, some 8], [some 10, some 8, some 8]]⟩

/-- Catalog entry whose files are all present. -/
def goodPump : PumpEntry :=
  ⟨"good", some diamondTable, some dia210Table, some power210Table⟩

/-- Catalog entry with no readable boundary file. -/
def badPump : PumpEntry := ⟨"bad", none, none, none⟩


/-- The minimum-by-distance of a nonempty candidate list is a least
element and the first one attaining the least distance: every element of
the prefix before it is strictly farther. -/
theorem minByDistance_spec (cs : List Candidate) :
    ∀ c : Candidate,
      (∀ x ∈ c :: cs, (minByDistance c cs).distance ≤ x.distance) ∧
        ∃ l1 l2, c :: cs = l1 ++ minByDistance c cs :: l2 ∧
          ∀ x ∈ l1, (minByDistance c cs).distance < x.distance := by
  induction cs with
  | nil =>
    intro c
    refine ⟨?_, [], [], rfl, by simp⟩
    intro x hx
    have hx2 : x = c := by simpa using hx
    subst hx2
    simp [minByDistance]
  | cons a rest ih =>
    intro c
    have hdef : minByDistance c (a :: rest) =
        minByDistance (if a.distance < c.distance then a else c) rest := rfl
    by_cases hac : a.distance < c.distance
    · rw [hdef, if_pos hac]
      obtain ⟨hle, l1, l2, hsplit, hstrict⟩ := ih a
      refine ⟨?_, c :: l1, l2, ?_, ?_⟩
      · intro x hx
        rcases List.mem_cons.mp hx with h | h
        · rw [h]
          exact le_of_lt (lt_of_le_of_lt (hle a (List.mem_cons_self a rest)) hac)
        · exact hle x h
      · rw [List.cons_append, ← hsplit]
      · intro x hx
        rcases List.mem_cons.mp hx with h | h
        · rw [h]
          exact lt_of_le_of_lt (hle a (List.mem_cons_self a rest)) hac
        · exact hstrict x h
    · rw [hdef, if_neg hac]
      obtain ⟨hle, l1, l2, hsplit, hstrict⟩ := ih c
      have hca : c.distance ≤ a.distance := le_of_not_lt hac
      cases l1 with
      | nil =>
        simp only [List.nil_append] at hsplit
        have hm : minByDistance c rest = c := by
          injection hsplit with h1 h2
          exact h1.symm
        refine ⟨?_, [], a :: rest, by simp [hm], by simp⟩
        intro x hx
        rcases List.mem_cons.mp hx with h | h
        · rw [h]
          exact le_of_eq (congrArg Candidate.distance hm)
        rcases List.mem_cons.mp h with h2 | h2
        · rw [h2]
          exact (le_of_eq (congrArg Candidate.distance hm)).trans hca
        · exact hle x (List.mem_cons_of_mem c h2)
      | cons b l1' =>
        injection hsplit with hb hrest
        have hmb : (minByDistance c rest).distance < c.distance := by
          have h3 := hstrict b (List.mem_cons_self b l1')
          rw [← hb] at h3
          exact h3
        have hrest2 : rest = l1' ++ minByDistance c rest :: l2 := hrest
        refine ⟨?_, c :: a :: l1', l2, ?_, ?_⟩
        · intro x hx
          rcases List.mem_cons.mp hx with h | h
          · rw [h]
            exact hle c (List.mem_cons_self c rest)
          rcases List.mem_cons.mp h with h2 | h2
          · rw [h2]
            exact le_of_lt (lt_of_lt_of_le hmb hca)
          · exact hle x (List.mem_cons_of_mem c h2)
        · simp only [List.cons_append]
          rw [← hrest2]
        · intro x hx
          rcases List.mem_cons.mp hx with h | h
          · rw [h]
            exact hmb
          rcases List.mem_cons.mp h with h2 | h2
          · rw [h2]
            exact lt_of_lt_of_le hmb hca
          · exact hstrict x (List.mem_cons_of_mem b h2)

theorem collectCandidates_ok_eq (t : Table) (fc : String) (flow head : ℚ) :
    ∀ (cols : List String) (l : List Candidate),
      collectCandidates t fc flow head cols = Except.ok l →
      l = cols.filterMap (fun c => okCandidate t fc c flow head) := by
  intro cols
  induction cols with
  | nil =>
    intro l h
    simp only [collectCandidates] at h
    injection h with h
    simp [← h]
  | cons c rest ih =>
    intro l h
    simp only [collectCandidates] at h
    cases hc : candidateOf t fc c flow head with
    | none =>
      rw [hc] at h
      simp only [List.filterMap_cons]
      have hok : okCandidate t fc c flow head = none := by
        simp [okCandidate, hc]
      rw [hok]
      exact ih l h
    | some e =>
      cases e with
      | error u =>
        rw [hc] at h
        cases h
      | ok cand =>
        rw [hc] at h
        cases hr : collectCandidates t fc flow head rest with
        | error u =>
          rw [hr] at h
          cases h
        | ok l2 =>
          rw [hr] at h
          simp only [Except.map] at h
          injection h with h
          simp only [List.filterMap_cons]
          have hok : okCandidate t fc c flow head = some cand := by
            simp [okCandidate, hc]
          rw [hok, ← h, ih l2 hr]

theorem collectCandidates_ok_no_error (t : Table) (fc : String) (flow head : ℚ) :
    ∀ (cols : List String) (l : List Candidate),
      collectCandidates t fc flow head cols = Except.ok l →
      ∀ c ∈ cols, candidateOf t fc c flow head ≠ some (Except.error ()) := by
  intro cols
  induction cols with
  | nil =>
    intro l h c hc
    cases hc
  | cons c0 rest ih =>
    intro l h c hc
    simp only [collectCandidates] at h
    cases hc0 : candidateOf t fc c0 flow head with
    | none =>
      rw [hc0] at h
      rcases List.mem_cons.mp hc with h1 | h1
      · rw [h1, hc0]
        simp
      · exact ih l h c h1
    | some e =>
      cases e with
      | error u =>
        rw [hc0] at h
        cases h
      | ok cand =>
        rw [hc0] at h
        cases hr : collectCandidates t fc flow head rest with
        | error u =>
          rw [hr] at h
          cases h
        | ok l2 =>
          rcases List.mem_cons.mp hc with h1 | h1
          · rw [h1, hc0]
            simp
          · exact ih l2 hr c h1

theorem collectCandidates_all_none (t : Table) (fc : String) (flow head : ℚ) :
    ∀ cols : List String,
      (∀ c ∈ cols, candidateOf t fc c flow head = none) →
      collectCandidates t fc flow head cols = Except.ok [] := by
  intro cols
  induction cols with
  | nil =>
    intro _
    rfl
  | cons c0 rest ih =>
    intro h
    simp only [collectCandidates]
    rw [h c0 (List.mem_cons_self c0 rest)]
    exact ih fun c hc => h c (List.mem_cons_of_mem c0 hc)

theorem candidateOf_none {t : Table} {fc c : String} {flow head : ℚ}
    (h : (curveSamples t fc c).length < 2 ∨ headOnCurve t fc c flow < head) :
    candidateOf t fc c flow head = none := by
  by_cases h1 : (curveSamples t fc c).length < 2
  · simp [candidateOf, h1]
  · rcases h with h | h
    · exact absurd h h1
    · have h2 : ¬ head ≤ headOnCurve t fc c flow := not_le_of_lt h
      simp [candidateOf, h1, h2]

theorem okCandidate_of_qualifies {t : Table} {fc c : String} {flow head : ℚ} {d : Nat}
    (h1 : 2 ≤ (curveSamples t fc c).length)
    (h2 : head ≤ headOnCurve t fc c flow)
    (h3 : firstNat c = some d) :
    okCandidate t fc c flow head = some ⟨d, headOnCurve t fc c flow - head⟩ := by
  have h1' : ¬ (curveSamples t fc c).length < 2 := not_lt_of_le h1
  simp [okCandidate, candidateOf, h1', h2, h3]

theorem candidateOf_error_of_digitless {t : Table} {fc c : String} {flow head : ℚ}
    (h1 : 2 ≤ (curveSamples t fc c).length)
    (h2 : head ≤ headOnCurve t fc c flow)
    (h3 : firstNat c = none) :
    candidateOf t fc c flow head = some (Except.error ()) := by
  have h1' : ¬ (curveSamples t fc c).length < 2 := not_lt_of_le h1
  simp [candidateOf, h1', h2, h3]

theorem okCandidate_inv {t : Table} {fc c : String} {flow head : ℚ} {cand : Candidate}
    (h : okCandidate t fc c flow head = some cand) :
    2 ≤ (curveSamples t fc c).length ∧ head ≤ headOnCurve t fc c flow ∧
      firstNat c = some cand.diameter ∧
      cand.distance = headOnCurve t fc c flow - head := by
  unfold okCandidate candidateOf at h
  by_cases h1 : (curveSamples t fc c).length < 2
  · rw [if_pos h1] at h
    cases h
  · by_cases h2 : head ≤ headOnCurve t fc c flow
    · cases h3 : firstNat c with
      | none =>
        rw [if_neg h1, if_pos h2, h3] at h
        cases h
      | some d =>
        rw [if_neg h1, if_pos h2, h3] at h
        injection h with h4
        refine ⟨Nat.le_of_not_lt h1, h2, ?_, ?_⟩
        · rw [← h4]
        · rw [← h4]
    · rw [if_neg h1, if_neg h2] at h
      cases h

theorem diameterPhase_ok_some {t : Table} {fc : String} {flow head : ℚ} {d : Nat}
    (h : diameterPhase t fc flow head = Except.ok (some d)) :
    ∃ c ∈ phiColsOf t, ∃ cand : Candidate,
      okCandidate t fc c flow head = some cand ∧ cand.diameter = d ∧
      (∀ c2 ∈ phiColsOf t, ∀ cand2 : Candidate,
        okCandidate t fc c2 flow head = some cand2 → cand.distance ≤ cand2.distance) ∧
      (∀ c2 ∈ phiColsOf t, candidateOf t fc c2 flow head ≠ some (Except.error ())) := by
  unfold diameterPhase at h
  cases hcol : collectCandidates t fc flow head (phiColsOf t) with
  | error u =>
    rw [hcol] at h
    cases h
  | ok l =>
    rw [hcol] at h
    cases l with
    | nil => exact absurd h (by simp)
    | cons c0 cs =>
      have hd : (minByDistance c0 cs).diameter = d := by
        injection h with h2
        injection h2 with h3
      obtain ⟨hle, l1, l2, hsplit, hstrict⟩ := minByDistance_spec cs c0
      have hl : c0 :: cs = (phiColsOf t).filterMap (fun c => okCandidate t fc c flow head) :=
        collectCandidates_ok_eq t fc flow head _ _ hcol
      have hm_mem : minByDistance c0 cs ∈ c0 :: cs := by
        rw [hsplit]
        exact List.mem_append_right l1 (List.mem_cons_self _ _)
      rw [hl] at hm_mem
      obtain ⟨c, hcmem, hcok⟩ := List.mem_filterMap.mp hm_mem
      refine ⟨c, hcmem, minByDistance c0 cs, hcok, hd, ?_, ?_⟩
      · intro c2 hc2 cand2 hok2
        have hmem2 : cand2 ∈ c0 :: cs := by
          rw [hl]
          exact List.mem_filterMap.mpr ⟨c2, hc2, hok2⟩
        exact hle cand2 hmem2
      · intro c2 hc2
        exact collectCandidates_ok_no_error t fc flow head _ _ hcol c2 hc2

theorem diameterPhase_ok_first {t : Table} {fc : String} {flow head : ℚ} {d : Nat}
    (h : diameterPhase t fc flow head = Except.ok (some d)) :
    ∃ cols1 c cols2, phiColsOf t = cols1 ++ c :: cols2 ∧
      ∃ cand : Candidate, okCandidate t fc c flow head = some cand ∧ cand.diameter = d ∧
        (∀ c2 ∈ phiColsOf t, ∀ cand2 : Candidate,
          okCandidate t fc c2 flow head = some cand2 → cand.distance ≤ cand2.distance) ∧
        (∀ c2 ∈ cols1, ∀ cand2 : Candidate,
          okCandidate t fc c2 flow head = some cand2 → cand.distance < cand2.distance) := by
  unfold diameterPhase at h
  cases hcol : collectCandidates t fc flow head (phiColsOf t) with
  | error u =>
    rw [hcol] at h
    cases h
  | ok l =>
    rw [hcol] at h
    cases l with
    | nil => exact absurd h (by simp)
    | cons c0 cs =>
      have hd : (minByDistance c0 cs).diameter = d := by
        injection h with h2
        injection h2 with h3
      obtain ⟨hle, l1, l2, hsplit, hstrict⟩ := minByDistance_spec cs c0
      have hl : c0 :: cs = (phiColsOf t).filterMap (fun c => okCandidate t fc c flow head) :=
        collectCandidates_ok_eq t fc flow head _ _ hcol
      have hfm : (phiColsOf t).filterMap (fun c => okCandidate t fc c flow head) =
          l1 ++ minByDistance c0 cs :: l2 := hl.symm.trans hsplit
      obtain ⟨u, v, huv, hu, hv⟩ := List.filterMap_eq_append_iff.mp hfm
      obtain ⟨p, a, s, hpas, hpnone, ha, hs⟩ := List.filterMap_eq_cons_iff.mp hv
      refine ⟨u ++ p, a, s, ?_, minByDistance c0 cs, ha, hd, ?_, ?_⟩
      · rw [huv, hpas, List.append_assoc]
      · intro c2 hc2 cand2 hok2
        have hmem2 : cand2 ∈ c0 :: cs := by
          rw [hl]
          exact List.mem_filterMap.mpr ⟨c2, hc2, hok2⟩
        exact hle cand2 hmem2
      · intro c2 hc2 cand2 hok2
        rcases List.mem_append.mp hc2 with h2 | h2
        · have hmem2 : cand2 ∈ l1 := by
            rw [← hu]
            exact List.mem_filterMap.mpr ⟨c2, h2, hok2⟩
          exact hstrict cand2 hmem2
        · have hnone := hpnone c2 h2
          rw [hnone] at hok2
          exact absurd hok2 (by simp)

theorem processCurves_flow_none {gd : Interp2D} {t : Table} {flow head : ℚ}
    (h : flowColOf t = none) : processCurves gd t flow head = ⟨none, none⟩ := by
  unfold processCurves
  rw [h]

theorem processCurves_dia_error {gd : Interp2D} {t : Table} {flow head : ℚ} {fc : String}
    (hfc : flowColOf t = some fc)
    (hd : diameterPhase (dropnaOn t fc) fc flow head = Except.error ()) :
    processCurves gd t flow head = ⟨none, none⟩ := by
  unfold processCurves
  split
  · rfl
  · rename_i fc2 heq
    rw [hfc] at heq
    injection heq with heq2
    subst heq2
    rw [hd]

theorem processCurves_dia_ok {gd : Interp2D} {t : Table} {flow head : ℚ} {fc : String}
    {dia : Option Nat}
    (hfc : flowColOf t = some fc)
    (hd : diameterPhase (dropnaOn t fc) fc flow head = Except.ok dia) :
    (processCurves gd t flow head).diameter = dia := by
  unfold processCurves
  split
  · rename_i heq
    rw [hfc] at heq
    cases heq
  · rename_i fc2 heq
    rw [hfc] at heq
    injection heq with heq2
    subst heq2
    rw [hd]
    cases heff : efficiencyPhase gd (dropnaOn t fc) fc flow head with
    | error u => rfl
    | ok eff => rfl

theorem processCurves_diameter_some {gd : Interp2D} {t : Table} {flow head : ℚ} {d : Nat}
    (h : (processCurves gd t flow head).diameter = some d) :
    ∃ fc, flowColOf t = some fc ∧
      diameterPhase (dropnaOn t fc) fc flow head = Except.ok (some d) := by
  unfold processCurves at h
  split at h
  · cases h
  · rename_i fc2 heq
    cases hd : diameterPhase (dropnaOn t fc2) fc2 flow head with
    | error u =>
      rw [hd] at h
      cases h
    | ok dia =>
      rw [hd] at h
      refine ⟨fc2, heq, ?_⟩
      rw [hd]
      cases heff : efficiencyPhase gd (dropnaOn t fc2) fc2 flow head with
      | error u =>
        rw [heff] at h
        exact congrArg Except.ok h
      | ok eff =>
        rw [heff] at h
        exact congrArg Except.ok h

theorem processCurves_efficiency_some {gd : Interp2D} {t : Table} {flow head : ℚ} {v : ℚ}
    (h : (processCurves gd t flow head).efficiency = some v) :
    ∃ fc, flowColOf t = some fc ∧
      efficiencyPhase gd (dropnaOn t fc) fc flow head = Except.ok (some v) := by
  unfold processCurves at h
  split at h
  · cases h
  · rename_i fc2 heq
    cases hd : diameterPhase (dropnaOn t fc2) fc2 flow head with
    | error u =>
      rw [hd] at h
      cases h
    | ok dia =>
      rw [hd] at h
      refine ⟨fc2, heq, ?_⟩
      cases heff : efficiencyPhase gd (dropnaOn t fc2) fc2 flow head with
      | error u =>
        rw [heff] at h
        cases h
      | ok eff =>
        rw [heff] at h
        exact congrArg Except.ok h

theorem processCurves_eff_phase_ok {gd : Interp2D} {t : Table} {flow head : ℚ}
    {fc : String} {eff : Option ℚ}
    (hfc : flowColOf t = some fc)
    (he : efficiencyPhase gd (dropnaOn t fc) fc flow head = Except.ok eff) :
    (processCurves gd t flow head).efficiency = eff ∨
      processCurves gd t flow head = ⟨none, none⟩ := by
  unfold processCurves
  split
  · exact Or.inr rfl
  · rename_i fc2 heq
    rw [hfc] at heq
    injection heq with heq2
    subst heq2
    cases hd : diameterPhase (dropnaOn t fc) fc flow head with
    | error u => exact Or.inr rfl
    | ok dia =>
      rw [he]
      exact Or.inl rfl

theorem efficiencyPhase_ok_of_pool {gd : Interp2D} {t : Table} {fc : String}
    {flow head : ℚ} {pts : List (ℚ × ℚ)} {vals : List ℚ}
    (hp : pooledPoints t fc (effColsOf t) = Except.ok (pts, vals)) :
    efficiencyPhase gd t fc flow head = Except.ok (effEstimate gd pts vals flow head) := by
  unfold efficiencyPhase
  rw [hp]

theorem efficiencyPhase_ok_some {gd : Interp2D} {t : Table} {fc : String}
    {flow head : ℚ} {v : ℚ}
    (h : efficiencyPhase gd t fc flow head = Except.ok (some v)) :
    ∃ pts vals, pooledPoints t fc (effColsOf t) = Except.ok (pts, vals) ∧
      4 ≤ pts.length ∧
      ∃ w, (gd.cubic pts vals (flow, head) = some w ∨
          (gd.cubic pts vals (flow, head) = none ∧
            gd.linear pts vals (flow, head) = some w)) ∧ v = round2 w := by
  unfold efficiencyPhase at h
  cases hp : pooledPoints t fc (effColsOf t) with
  | error u =>
    rw [hp] at h
    cases h
  | ok pv =>
    obtain ⟨pts, vals⟩ := pv
    rw [hp] at h
    injection h with h2
    refine ⟨pts, vals, rfl, ?_⟩
    unfold effEstimate at h2
    by_cases h4 : 4 ≤ pts.length
    · rw [if_pos h4] at h2
      refine ⟨h4, ?_⟩
      cases hcu : gd.cubic pts vals (flow, head) with
      | some w =>
        rw [hcu] at h2
        injection h2 with h3
        exact ⟨w, Or.inl rfl, h3.symm⟩
      | none =>
        rw [hcu] at h2
        cases hli : gd.linear pts vals (flow, head) with
        | some w =>
          rw [hli] at h2
          injection h2 with h3
          exact ⟨w, Or.inr ⟨rfl, rfl⟩, h3.symm⟩
        | none =>
          rw [hli] at h2
          cases h2
    · rw [if_neg h4] at h2
      cases h2

theorem effEstimate_lt4 {gd : Interp2D} {pts : List (ℚ × ℚ)} {vals : List ℚ}
    {flow head : ℚ} (h4 : pts.length < 4) :
    effEstimate gd pts vals flow head = none := by
  unfold effEstimate
  rw [if_neg (Nat.not_le_of_lt h4)]

theorem effEstimate_both_none {gd : Interp2D} {pts : List (ℚ × ℚ)} {vals : List ℚ}
    {flow head : ℚ}
    (hcu : gd.cubic pts vals (flow, head) = none)
    (hli : gd.linear pts vals (flow, head) = none) :
    effEstimate gd pts vals flow head = none := by
  unfold effEstimate
  by_cases h4 : 4 ≤ pts.length
  · rw [if_pos h4, hcu, hli]
  · rw [if_neg h4]

theorem perf_diameter_eq (gd : Interp2D) (t : Table) (pt : Option Table) (flow head : ℚ) :
    (get_performance_details gd (some t) pt flow head).diameter =
      (processCurves gd t flow head).diameter := rfl

theorem perf_efficiency_eq (gd : Interp2D) (t : Table) (pt : Option Table) (flow head : ℚ) :
    (get_performance_details gd (some t) pt flow head).efficiency =
      (processCurves gd t flow head).efficiency := rfl

theorem perf_power_eq (gd : Interp2D) (ct pt : Option Table) (flow head : ℚ) :
    (get_performance_details gd ct pt flow head).power =
      powerPhase (get_performance_details gd ct pt flow head).diameter pt flow := rfl

theorem powerPhase_some {dia : Option Nat} {pt : Option Table} {flow : ℚ} {v : ℚ}
    (h : powerPhase dia pt flow = some v) :
    ∃ d, dia = some d ∧ d ≠ 0 ∧
      ∃ ptab, pt = some ptab ∧
        ∃ pfc, flowColOf ptab = some pfc ∧
          ∃ pcol, ptab.cols.find? (fun c => normName c == powerColPattern d) = some pcol ∧
            2 ≤ (curveSamples ptab pfc pcol).length ∧
            v = round2 (interp1d (curveSamples ptab pfc pcol) flow) := by
  unfold powerPhase at h
  split at h
  · rename_i d
    split at h
    · rename_i hd0
      split at h
      · rename_i ptab
        split at h
        · rename_i pfc heqfc
          split at h
          · rename_i pcol heqcol
            split at h
            · rename_i hlen
              injection h with h2
              exact ⟨d, rfl, hd0, ptab, rfl, pfc, heqfc, pcol, heqcol, hlen, h2.symm⟩
            · cases h
          · cases h
        · cases h
      · cases h
    · cases h
  · cases h

theorem powerPhase_zero {pt : Option Table} {flow : ℚ} :
    powerPhase (some 0) pt flow = none := rfl

theorem screenPump_eq_some {gd : Interp2D} {flow head : ℚ} {p : PumpEntry} {r : PumpResult}
    (h : screenPump gd flow head p = some r) :
    ∃ poly, get_pump_boundary_polygon p.boundary = some poly ∧
      contains_point poly (flow, head) = true ∧ r = pumpRecord gd flow head p := by
  unfold screenPump at h
  split at h
  · rename_i poly heq
    split at h
    · rename_i hcp
      injection h with h2
      exact ⟨poly, heq, hcp, h2.symm⟩
    · cases h
  · cases h

theorem screenPump_of {gd : Interp2D} {flow head : ℚ} {p : PumpEntry}
    {poly : List (Cell × Cell)}
    (hb : get_pump_boundary_polygon p.boundary = some poly)
    (hcp : contains_point poly (flow, head) = true) :
    screenPump gd flow head p = some (pumpRecord gd flow head p) := by
  simp [screenPump, hb, hcp]

theorem find_suitable_eq_filterMap (gd : Interp2D) (flow head : ℚ) (ps : List PumpEntry) :
    find_suitable_pumps gd (some ps) flow head = ps.filterMap (screenPump gd flow head) := by
  have hgen : ∀ (l : List PumpEntry) (acc : List PumpResult),
      l.foldl (fun acc p =>
        match get_pump_boundary_polygon p.boundary with
        | some poly =>
          if contains_point poly (flow, head) then acc ++ [pumpRecord gd flow head p]
          else acc
        | none => acc) acc = acc ++ l.filterMap (screenPump gd flow head) := by
    intro l
    induction l with
    | nil =>
      intro acc
      simp
    | cons p rest ih =>
      intro acc
      rw [List.foldl_cons]
      have hstep : (match get_pump_boundary_polygon p.boundary with
          | some poly =>
            if contains_point poly (flow, head) then acc ++ [pumpRecord gd flow head p]
            else acc
          | none => acc) = acc ++ (screenPump gd flow head p).toList := by
        unfold screenPump
        cases hb : get_pump_boundary_polygon p.boundary with
        | none => simp
        | some poly =>
          by_cases hcp : contains_point poly (flow, head)
          · simp [hcp]
          · simp [hcp]
      rw [hstep, ih]
      cases hs : screenPump gd flow head p with
      | none => simp [List.filterMap_cons, hs]
      | some r => simp [List.filterMap_cons, hs]
  exact hgen ps []

/-- The boundary builder as a cascade of its three guards. -/
theorem boundary_cases (t : Table) :
    get_pump_boundary_polygon (some t) =
      if t.cols.contains "x" then
        if curveColsOf t ≠ [] then
          if 3 ≤ ((t.rows.map (getCell t "x")).zip (t.rows.map (rowMax t (curveColsOf t))) ++
              ((t.rows.map (getCell t "x")).zip
                (t.rows.map (rowMin t (curveColsOf t)))).reverse).length then
            some ((t.rows.map (getCell t "x")).zip (t.rows.map (rowMax t (curveColsOf t))) ++
              ((t.rows.map (getCell t "x")).zip
                (t.rows.map (rowMin t (curveColsOf t)))).reverse)
          else none
        else none
      else none := rfl

/-- C1: if the returned diameter is some d, it was parsed from a phi_
column whose curve has at least two samples and whose interpolated head
at the requested flow meets the requirement, and that column minimises
head_on_curve - required_head over all qualifying columns; if every
phi_ column is short or below the requirement, the diameter is none. -/
theorem diameter_selection_sound_and_optimal
    (gd : Interp2D) (t : Table) (pt : Option Table) (flow head : ℚ) :
    (∀ d, (get_performance_details gd (some t) pt flow head).diameter = some d →
      ∃ fc, flowColOf t = some fc ∧
        ∃ c ∈ phiColsOf (dropnaOn t fc),
          firstNat c = some d ∧
          2 ≤ (curveSamples (dropnaOn t fc) fc c).length ∧
          head ≤ headOnCurve (dropnaOn t fc) fc c flow ∧
          ∀ c2 ∈ phiColsOf (dropnaOn t fc),
            2 ≤ (curveSamples (dropnaOn t fc) fc c2).length →
            head ≤ headOnCurve (dropnaOn t fc) fc c2 flow →
            headOnCurve (dropnaOn t fc) fc c flow - head ≤
              headOnCurve (dropnaOn t fc) fc c2 flow - head) ∧
    (∀ fc, flowColOf t = some fc →
      (∀ c ∈ phiColsOf (dropnaOn t fc),
        (curveSamples (dropnaOn t fc) fc c).length < 2 ∨
          headOnCurve (dropnaOn t fc) fc c flow < head) →
      (get_performance_details gd (some t) pt flow head).diameter = none) := by
  constructor
  · intro d h
    rw [perf_diameter_eq] at h
    obtain ⟨fc, hfc, hdia⟩ := processCurves_diameter_some h
    obtain ⟨c, hcmem, cand, hok, hdiam, hmin, hnoerr⟩ := diameterPhase_ok_some hdia
    obtain ⟨hlen, hhead, hfn, hdist⟩ := okCandidate_inv hok
    refine ⟨fc, hfc, c, hcmem, ?_, hlen, hhead, ?_⟩
    · rw [hfn, hdiam]
    · intro c2 hc2 hlen2 hhead2
      cases hfn2 : firstNat c2 with
      | none =>
        exact absurd (candidateOf_error_of_digitless hlen2 hhead2 hfn2) (hnoerr c2 hc2)
      | some d2 =>
        have hok2 := okCandidate_of_qualifies hlen2 hhead2 hfn2
        have hle := hmin c2 hc2 _ hok2
        rw [hdist] at hle
        exact hle
  · intro fc hfc hall
    rw [perf_diameter_eq]
    have hnone := collectCandidates_all_none (dropnaOn t fc) fc flow head
      (phiColsOf (dropnaOn t fc)) (fun c hc => candidateOf_none (hall c hc))
    have hdia : diameterPhase (dropnaOn t fc) fc flow head = Except.ok none := by
      unfold diameterPhase
      rw [hnone]
    exact processCurves_dia_ok hfc hdia

/-- C1 witness: on a table whose only curve stays below the requested
head, the diameter comes out none. -/
theorem diameter_selection_witness :
    (get_performance_details gdNone (some lowCurveTable) none 1 5).diameter = none :=
  (diameter_selection_sound_and_optimal gdNone lowCurveTable none 1 5).2 "x"
    (by with_unfolding_all decide) (by with_unfolding_all decide)

/-- C9: the selected diameter comes from the earliest phi_ column
attaining the minimal distance: the column list splits around the
winning column, every candidate strictly before it lies strictly
farther from the requirement, and the winner is a global minimum. -/
theorem diameter_tie_break_first_column
    (gd : Interp2D) (t : Table) (pt : Option Table) (flow head : ℚ) (d : Nat)
    (h : (get_performance_details gd (some t) pt flow head).diameter = some d) :
    ∃ fc, flowColOf t = some fc ∧
      ∃ cols1 c cols2, phiColsOf (dropnaOn t fc) = cols1 ++ c :: cols2 ∧
        ∃ cand : Candidate,
          okCandidate (dropnaOn t fc) fc c flow head = some cand ∧
          cand.diameter = d ∧
          (∀ c2 ∈ phiColsOf (dropnaOn t fc), ∀ cand2 : Candidate,
            okCandidate (dropnaOn t fc) fc c2 flow head = some cand2 →
            cand.distance ≤ cand2.distance) ∧
          (∀ c2 ∈ cols1, ∀ cand2 : Candidate,
            okCandidate (dropnaOn t fc) fc c2 flow head = some cand2 →
            cand.distance < cand2.distance) := by
  rw [perf_diameter_eq] at h
  obtain ⟨fc, hfc, hdia⟩ := processCurves_diameter_some h
  obtain ⟨cols1, c, cols2, hsplit, cand, hok, hdiam, hmin, hstrict⟩ :=
    diameterPhase_ok_first hdia
  exact ⟨fc, hfc, cols1, c, cols2, hsplit, cand, hok, hdiam, hmin, hstrict⟩

/-- C9 witness: two phi_ columns tied at distance 2; the result is the
diameter of the first, and the theorem exhibits the split with a
strictly-farther prefix. -/
theorem diameter_tie_break_witness :
    ∃ fc, flowColOf tiedPhiTable = some fc ∧
      ∃ cols1 c cols2, phiColsOf (dropnaOn tiedPhiTable fc) = cols1 ++ c :: cols2 ∧
        ∃ cand : Candidate,
          okCandidate (dropnaOn tiedPhiTable fc) fc c 5 6 = some cand ∧
          cand.diameter = 300 ∧
          (∀ c2 ∈ phiColsOf (dropnaOn tiedPhiTable fc), ∀ cand2 : Candidate,
            okCandidate (dropnaOn tiedPhiTable fc) fc c2 5 6 = some cand2 →
            cand.distance ≤ cand2.distance) ∧
          (∀ c2 ∈ cols1, ∀ cand2 : Candidate,
            okCandidate (dropnaOn tiedPhiTable fc) fc c2 5 6 = some cand2 →
            cand.distance < cand2.distance) :=
  diameter_tie_break_first_column gdNone tiedPhiTable none 5 6 300
    (by with_unfolding_all decide)

/-- C2: with the x column present and at least one curve column, the
vertex list pairs the flows with the row maxima in row order and then
with the row minima in reversed order, has exactly twice as many
vertices as rows, is returned whenever there are at least two rows, and
collapses to none when fewer than three vertices result. -/
theorem boundary_polygon_construction (t : Table)
    (hx : t.cols.contains "x" = true) (hc : curveColsOf t ≠ []) :
    ((t.rows.map (getCell t "x")).zip (t.rows.map (rowMax t (curveColsOf t))) ++
        ((t.rows.map (getCell t "x")).zip
          (t.rows.map (rowMin t (curveColsOf t)))).reverse).length =
      2 * t.rows.length ∧
    (2 ≤ t.rows.length →
      get_pump_boundary_polygon (some t) =
        some ((t.rows.map (getCell t "x")).zip (t.rows.map (rowMax t (curveColsOf t))) ++
          ((t.rows.map (getCell t "x")).zip
            (t.rows.map (rowMin t (curveColsOf t)))).reverse)) ∧
    (2 * t.rows.length < 3 → get_pump_boundary_polygon (some t) = none) := by
  have hlen : ((t.rows.map (getCell t "x")).zip (t.rows.map (rowMax t (curveColsOf t))) ++
      ((t.rows.map (getCell t "x")).zip
        (t.rows.map (rowMin t (curveColsOf t)))).reverse).length = 2 * t.rows.length := by
    simp only [List.length_append, List.length_reverse, List.length_zip,
      List.length_map, Nat.min_self]
    omega
  refine ⟨hlen, ?_, ?_⟩
  · intro h2
    rw [boundary_cases t, if_pos hx, if_pos hc, if_pos (by rw [hlen]; omega)]
  · intro h3
    rw [boundary_cases t, if_pos hx, if_pos hc, if_neg (by rw [hlen]; omega)]

/-- C2 witness: the diamond table has three rows and yields its
six-vertex polygon. -/
theorem boundary_polygon_construction_witness :
    get_pump_boundary_polygon (some diamondTable) =
      some ((diamondTable.rows.map (getCell diamondTable "x")).zip
          (diamondTable.rows.map (rowMax diamondTable (curveColsOf diamondTable))) ++
        ((diamondTable.rows.map (getCell diamondTable "x")).zip
          (diamondTable.rows.map (rowMin diamondTable (curveColsOf diamondTable)))).reverse) :=
  (boundary_polygon_construction diamondTable (by decide) (by decide)).2.1 (by decide)

/-- C7 counterexample: a boundary table whose flow column is named flow,
with one head column and three rows (so six vertices would result), is
rejected: the builder demands a column named exactly x. -/
theorem boundary_flow_named_counterexample :
    flowNamedTable.cols = ["flow", "h_200"] ∧
    3 ≤ 2 * flowNamedTable.rows.length ∧
    get_pump_boundary_polygon (some flowNamedTable) = none := by
  refine ⟨rfl, by decide, by with_unfolding_all rfl⟩

/-- C7 amended: the builder returns a polygon exactly for tables holding
a column named x (case-sensitively), at least one column whose
lower-case name differs from x, and at least three resulting vertices;
it signals no boundary exactly when one of these fails. -/
theorem boundary_requires_x_column (t : Table) :
    (t.cols.contains "x" = true → curveColsOf t ≠ [] → 3 ≤ 2 * t.rows.length →
      ∃ poly, get_pump_boundary_polygon (some t) = some poly) ∧
    (get_pump_boundary_polygon (some t) = none →
      t.cols.contains "x" = false ∨ curveColsOf t = [] ∨ 2 * t.rows.length < 3) := by
  have hlen : ((t.rows.map (getCell t "x")).zip (t.rows.map (rowMax t (curveColsOf t))) ++
      ((t.rows.map (getCell t "x")).zip
        (t.rows.map (rowMin t (curveColsOf t)))).reverse).length = 2 * t.rows.length := by
    simp only [List.length_append, List.length_reverse, List.length_zip,
      List.length_map, Nat.min_self]
    omega
  constructor
  · intro hx hc h3
    rw [boundary_cases t, if_pos hx, if_pos hc, if_pos (by rw [hlen]; omega)]
    exact ⟨_, rfl⟩
  · intro hnone
    rw [boundary_cases t] at hnone
    by_cases hx : t.cols.contains "x" = true
    · by_cases hc : curveColsOf t ≠ []
      · rw [if_pos hx, if_pos hc] at hnone
        by_cases h3 : 3 ≤ 2 * t.rows.length
        · rw [if_pos (by rw [hlen]; omega)] at hnone
          cases hnone
        · exact Or.inr (Or.inr (by omega))
      · exact Or.inr (Or.inl (not_not.mp hc))
    · exact Or.inl (Bool.not_eq_true _ ▸ (by simpa using hx))

/-- C7 witness: the diamond table satisfies all three conditions and
yields a polygon. -/
theorem boundary_requires_x_column_witness :
    ∃ poly, get_pump_boundary_polygon (some diamondTable) = some poly :=
  (boundary_requires_x_column diamondTable).1 (by decide) (by decide) (by decide)

/-- C8: the diamond envelope with flows 0, 10, 20, upper heads 5, 10, 5
and lower heads 1, 2, 1 yields a polygon that contains the operating
point (10, 6) and excludes (10, 11). -/
theorem diamond_envelope_containment :
    ∃ poly, get_pump_boundary_polygon (some diamondTable) = some poly ∧
      contains_point poly (10, 6) = true ∧
      contains_point poly (10, 11) = false :=
  ⟨[(some 0, some 5), (some 10, some 10), (some 20, some 5),
    (some 20, some 1), (some 10, some 2), (some 0, some 1)],
   by with_unfolding_all rfl, by with_unfolding_all decide, by with_unfolding_all decide⟩

/-- C3 counterexample: on a table whose qualifying phi_ column name
holds no digits, the diameter phase raises; in isolation the efficiency
phase would return 50, yet the returned record reports efficiency none:
a diameter-phase failure blocks efficiency estimation. -/
theorem failure_locality_counterexample :
    diameterPhase (dropnaOn digitlessPhiTable "x") "x" 1 1 = Except.error () ∧
    efficiencyPhase gdConst50 (dropnaOn digitlessPhiTable "x") "x" 1 1 =
      Except.ok (some 50) ∧
    (get_performance_details gdConst50 (some digitlessPhiTable) none 1 1).efficiency =
      none ∧
    (get_performance_details gdConst50 (some digitlessPhiTable) none 1 1).diameter =
      none := by
  refine ⟨?_, ?_, ?_, ?_⟩ <;> with_unfolding_all rfl

/-- C3 amended: power estimation never influences diameter or
efficiency, an efficiency-phase failure leaves the diameter intact, and
power depends on the other phases only through the selected diameter;
but a diameter-phase exception also forces efficiency to none, because
both run in the same protected block. -/
theorem failure_locality_amended
    (gd : Interp2D) (t : Table) (flow head : ℚ) :
    (∀ pt pt2 : Option Table,
      (get_performance_details gd (some t) pt flow head).diameter =
        (get_performance_details gd (some t) pt2 flow head).diameter ∧
      (get_performance_details gd (some t) pt flow head).efficiency =
        (get_performance_details gd (some t) pt2 flow head).efficiency) ∧
    (∀ fc dia, flowColOf t = some fc →
      diameterPhase (dropnaOn t fc) fc flow head = Except.ok dia →
      (processCurves gd t flow head).diameter = dia) ∧
    (∀ fc, flowColOf t = some fc →
      diameterPhase (dropnaOn t fc) fc flow head = Except.error () →
      processCurves gd t flow head = ⟨none, none⟩) ∧
    (∀ pt : Option Table,
      (get_performance_details gd (some t) pt flow head).power =
        powerPhase (processCurves gd t flow head).diameter pt flow) := by
  refine ⟨fun pt pt2 => ⟨rfl, rfl⟩, ?_, ?_, fun pt => rfl⟩
  · intro fc dia hfc hd
    exact processCurves_dia_ok hfc hd
  · intro fc hfc hd
    exact processCurves_dia_error hfc hd

/-- C3 witness: the amended coupling applied to the digitless table. -/
theorem failure_locality_witness :
    processCurves gdConst50 digitlessPhiTable 1 1 = ⟨none, none⟩ :=
  (failure_locality_amended gdConst50 digitlessPhiTable 1 1).2.2.1 "x"
    (by with_unfolding_all decide) (by with_unfolding_all rfl)

/-- C4: a present power value demands a selected diameter, a power
table, a flow column in it, a power column matching p_<diameter>, at
least two samples on that curve, and equals the rounded interpolant of
the curve at the requested flow. -/
theorem power_requires_diameter
    (gd : Interp2D) (ct pt : Option Table) (flow head : ℚ) :
    ∀ v, (get_performance_details gd ct pt flow head).power = some v →
      ∃ d, (get_performance_details gd ct pt flow head).diameter = some d ∧
        ∃ ptab, pt = some ptab ∧
          ∃ pfc, flowColOf ptab = some pfc ∧
            ∃ pcol, ptab.cols.find? (fun c => normName c == powerColPattern d) = some pcol ∧
              2 ≤ (curveSamples ptab pfc pcol).length ∧
              v = round2 (interp1d (curveSamples ptab pfc pcol) flow) := by
  intro v h
  rw [perf_power_eq] at h
  obtain ⟨d, hdia, hd0, ptab, hpt, pfc, hfc, pcol, hcol, hlen, hv⟩ := powerPhase_some h
  exact ⟨d, hdia, ptab, hpt, pfc, hfc, pcol, hcol, hlen, hv⟩

/-- C4 witness: concrete run in which the power value 6 is obtained from
the p_210 curve at flow 5. -/
theorem power_requires_diameter_witness :
    ∃ d, (get_performance_details gdNone (some dia210Table) (some power210Table)
        5 6).diameter = some d ∧
      ∃ ptab, some power210Table = some ptab ∧
        ∃ pfc, flowColOf ptab = some pfc ∧
          ∃ pcol, ptab.cols.find? (fun c => normName c == powerColPattern d) = some pcol ∧
            2 ≤ (curveSamples ptab pfc pcol).length ∧
            (6 : ℚ) = round2 (interp1d (curveSamples ptab pfc pcol) 5) :=
  power_requires_diameter gdNone (some dia210Table) (some power210Table) 5 6 6
    (by with_unfolding_all rfl)

/-- C5: a present efficiency value demands at least four pooled points
and arises from the cubic scattered interpolation, or from the linear
one when the cubic gave no result, rounded to two decimals; fewer than
four pooled points, or both methods failing, force efficiency none. -/
theorem efficiency_dual_fallback
    (gd : Interp2D) (t : Table) (pt : Option Table) (flow head : ℚ) :
    (∀ v, (get_performance_details gd (some t) pt flow head).efficiency = some v →
      ∃ fc, flowColOf t = some fc ∧
        ∃ pts vals,
          pooledPoints (dropnaOn t fc) fc (effColsOf (dropnaOn t fc)) =
            Except.ok (pts, vals) ∧
          4 ≤ pts.length ∧
          ∃ w, (gd.cubic pts vals (flow, head) = some w ∨
              (gd.cubic pts vals (flow, head) = none ∧
                gd.linear pts vals (flow, head) = some w)) ∧
            v = round2 w) ∧
    (∀ fc pts vals, flowColOf t = some fc →
      pooledPoints (dropnaOn t fc) fc (effColsOf (dropnaOn t fc)) =
        Except.ok (pts, vals) →
      pts.length < 4 →
      (get_performance_details gd (some t) pt flow head).efficiency = none) ∧
    (∀ fc pts vals, flowColOf t = some fc →
      pooledPoints (dropnaOn t fc) fc (effColsOf (dropnaOn t fc)) =
        Except.ok (pts, vals) →
      gd.cubic pts vals (flow, head) = none →
      gd.linear pts vals (flow, head) = none →
      (get_performance_details gd (some t) pt flow head).efficiency = none) := by
  refine ⟨?_, ?_, ?_⟩
  · intro v h
    rw [perf_efficiency_eq] at h
    obtain ⟨fc, hfc, hphase⟩ := processCurves_efficiency_some h
    obtain ⟨pts, vals, hp, h4, w, hw, hv⟩ := efficiencyPhase_ok_some hphase
    exact ⟨fc, hfc, pts, vals, hp, h4, w, hw, hv⟩
  · intro fc pts vals hfc hp h4
    have hphase : efficiencyPhase gd (dropnaOn t fc) fc flow head = Except.ok none :=
      (efficiencyPhase_ok_of_pool hp).trans
        (congrArg Except.ok (effEstimate_lt4 h4))
    rw [perf_efficiency_eq]
    rcases processCurves_eff_phase_ok hfc hphase with h | h
    · exact h
    · rw [h]
  · intro fc pts vals hfc hp hcu hli
    have hphase : efficiencyPhase gd (dropnaOn t fc) fc flow head = Except.ok none :=
      (efficiencyPhase_ok_of_pool hp).trans
        (congrArg Except.ok (effEstimate_both_none hcu hli))
    rw [perf_efficiency_eq]
    rcases processCurves_eff_phase_ok hfc hphase with h | h
    · exact h
    · rw [h]

/-- C5 witness: four pooled points and a cubic oracle answering 50 give
efficiency 50. -/
theorem efficiency_dual_fallback_witness :
    ∃ fc, flowColOf effOnlyTable = some fc ∧
      ∃ pts vals,
        pooledPoints (dropnaOn effOnlyTable fc) fc (effColsOf (dropnaOn effOnlyTable fc)) =
          Except.ok (pts, vals) ∧
        4 ≤ pts.length ∧
        ∃ w, (gdConst50.cubic pts vals (1, 1) = some w ∨
            (gdConst50.cubic pts vals (1, 1) = none ∧
              gdConst50.linear pts vals (1, 1) = some w)) ∧
          (50 : ℚ) = round2 w :=
  (efficiency_dual_fallback gdConst50 effOnlyTable none 1 1).1 50
    (by with_unfolding_all rfl)

/-- C6: a missing catalog directory yields the empty result list; the
scan of a listed catalog is the screening filter, every returned record
stems from a pump whose polygon exists and contains the point, and each
such pump contributes its record. -/
theorem catalog_scanner_exclusion
    (gd : Interp2D) (flow head : ℚ) :
    find_suitable_pumps gd none flow head = [] ∧
    (∀ ps : List PumpEntry, find_suitable_pumps gd (some ps) flow head =
      ps.filterMap (screenPump gd flow head)) ∧
    (∀ (ps : List PumpEntry) (r : PumpResult),
      r ∈ find_suitable_pumps gd (some ps) flow head →
      ∃ p ∈ ps, ∃ poly, get_pump_boundary_polygon p.boundary = some poly ∧
        contains_point poly (flow, head) = true ∧ r = pumpRecord gd flow head p) ∧
    (∀ (ps : List PumpEntry) (p : PumpEntry) (poly : List (Cell × Cell)),
      p ∈ ps → get_pump_boundary_polygon p.boundary = some poly →
      contains_point poly (flow, head) = true →
      pumpRecord gd flow head p ∈ find_suitable_pumps gd (some ps) flow head) := by
  refine ⟨rfl, find_suitable_eq_filterMap gd flow head, ?_, ?_⟩
  · intro ps r hr
    rw [find_suitable_eq_filterMap] at hr
    obtain ⟨p, hp, hs⟩ := List.mem_filterMap.mp hr
    obtain ⟨poly, hb, hcp, hr2⟩ := screenPump_eq_some hs
    exact ⟨p, hp, poly, hb, hcp, hr2⟩
  · intro ps p poly hp hb hcp
    rw [find_suitable_eq_filterMap]
    exact List.mem_filterMap.mpr ⟨p, hp, screenPump_of hb hcp⟩

/-- C6 witness: in a catalog holding one admissible pump and one with no
readable boundary, the admissible pump's record is returned. -/
theorem catalog_scanner_exclusion_witness :
    pumpRecord gdNone 10 6 goodPump ∈
      find_suitable_pumps gdNone (some [goodPump, badPump]) 10 6 :=
  (catalog_scanner_exclusion gdNone 10 6).2.2.2 [goodPump, badPump] goodPump
    [(some 0, some 5), (some 10, some 10), (some 20, some 5),
     (some 20, some 1), (some 10, some 2), (some 0, some 1)]
    (List.mem_cons_self goodPump [badPump])
    (by with_unfolding_all rfl) (by with_unfolding_all decide)

/-- C10: a selected diameter of 0 is falsy under the truthiness guard,
so the power step is skipped whatever the power table holds. -/
theorem zero_diameter_skips_power
    (gd : Interp2D) (ct pt : Option Table) (flow head : ℚ)
    (h : (get_performance_details gd ct pt flow head).diameter = some 0) :
    (get_performance_details gd ct pt flow head).power = none := by
  rw [perf_power_eq, h]
  rfl

/-- C10 witness: the phi_0 table selects diameter 0 and reports no
power even though the power table offers a two-sample p_0 curve. -/
theorem zero_diameter_skips_power_witness :
    (get_performance_details gdNone (some zeroDiaTable) (some power0Table) 1 5).power =
      none :=
  zero_diameter_skips_power gdNone (some zeroDiaTable) (some power0Table) 1 5
    (by with_unfolding_all rfl)
